import Mathlib

/-!
Shallow embedding of the CHIP-8 core of `src/c8.go` (repository yukinarit/ebiten8).

Conventions of the embedding:
* Go machine integers are modelled as `Nat` with explicit reductions
  (`% 256` for `uint8`, `% 65536` for `uint16`) exactly where the Go code
  performs wrapping arithmetic.
* Go arrays are modelled as `List Nat`; an out-of-range index — which makes
  the Go runtime panic the host process — is modelled by returning `none`.
* The two 64×32 pixel arrays of `VideoMemory` are modelled as functions
  `Nat → Nat → Nat`; `draw_pixcel` checks the array bounds explicitly and
  yields `none` on the accesses that would panic in Go.
* `rand.Rand` and the wall-clock timer decrements are nondeterministic
  inputs of `Cpu.Tick`; they are passed as explicit parameters
  (`rnd`, and the booleans saying whether at least 1/60 s elapsed for the
  delay / sound timer).
-/

/-- `H_PIXELS` of `c8.go`. -/
def H_PIXELS : Nat := 64

/-- `V_PIXELS` of `c8.go`. -/
def V_PIXELS : Nat := 32

/-- One 64×32 byte plane of `VideoMemory` (`[H_PIXELS][V_PIXELS]byte`). -/
def Plane : Type := Nat → Nat → Nat

/-- Pointwise update of a plane, modelling `vme.buf[x][y] = v`. -/
def planeSet (p : Plane) (x y v : Nat) : Plane :=
  fun a b => if a = x ∧ b = y then v else p a b

/-- `VideoMemory`: double buffer, `buf` is the pending plane the CPU writes,
`mem` the current plane. -/
structure VideoMemory where
  buf : Plane
  mem : Plane

/-- `NewVideoMemory()`: Go zero value, both planes all zero. -/
def NewVideoMemory : VideoMemory :=
  ⟨fun _ _ => 0, fun _ _ => 0⟩

/-- `VideoMemory.clear`: zero every cell of the pending plane `buf`. -/
def VideoMemory.clear (vme : VideoMemory) : VideoMemory :=
  { vme with buf := fun _ _ => 0 }

/-- `VideoMemory.draw_pixcel`: XOR one sprite bit into the pending plane at
`(x, y)` and report a collision.  The Go code indexes
`vme.buf[x][y]` with no bounds handling, so `x ≥ 64` or `y ≥ 32`
panics the host: modelled by `none`. -/
def draw_pixcel (p : Plane) (x y : Nat) (nb : Nat) : Option (Plane × Nat) :=
  if x < H_PIXELS ∧ y < V_PIXELS then
    let vf := if p x y = 1 ∧ nb = 1 then 1 else 0
    some (planeSet p x y (p x y ^^^ nb), vf)
  else
    none

/-- The eight `draw_pixcel` calls one row of `VideoMemory.draw` makes, in
source order: bit `7-k` of the row byte goes to x-coordinate `x+k`
(all coordinate sums are `uint16` additions, i.e. mod 65536). -/
def rowCells (x y byt : Nat) : List (Nat × Nat × Nat) :=
  [ (x % 65536,       y % 65536, byt / 128 % 2),
    ((x + 1) % 65536, y % 65536, byt / 64 % 2),
    ((x + 2) % 65536, y % 65536, byt / 32 % 2),
    ((x + 3) % 65536, y % 65536, byt / 16 % 2),
    ((x + 4) % 65536, y % 65536, byt / 8 % 2),
    ((x + 5) % 65536, y % 65536, byt / 4 % 2),
    ((x + 6) % 65536, y % 65536, byt / 2 % 2),
    ((x + 7) % 65536, y % 65536, byt % 2) ]

/-- All pixel writes of `VideoMemory.draw`, row `i` of the sprite at
y-coordinate `y+i` (`uint16` sum). -/
def spriteCells (x y : Nat) : List Nat → List (Nat × Nat × Nat)
  | [] => []
  | b :: rest => rowCells x y b ++ spriteCells x (y + 1) rest

/-- Sequence the `draw_pixcel` calls of `VideoMemory.draw`, accumulating the
collision counter `vf` (a `uint16` sum in Go, hence mod 65536). -/
def drawPixList (p : Plane) : List (Nat × Nat × Nat) → Option (Plane × Nat)
  | [] => some (p, 0)
  | (x, y, b) :: rest =>
    match draw_pixcel p x y b with
    | none => none
    | some (p1, v) =>
      match drawPixList p1 rest with
      | none => none
      | some (p2, vs) => some (p2, (v + vs) % 65536)

/-- `VideoMemory.draw`: XOR-blit the sprite rows at origin `(x, y)` and
return the final plane together with the returned collision flag
(`1` if the counter is positive, else `0`). -/
def draw (p : Plane) (x y : Nat) (rows : List Nat) : Option (Plane × Nat) :=
  match drawPixList p (spriteCells x y rows) with
  | none => none
  | some (p1, vf) => some (p1, if vf > 0 then 1 else 0)

/-- The 80 font bytes from the array literal in `NewMemory` (`c8.go`). -/
def FONT : List Nat :=
  [0xF0, 0x90, 0x90, 0x90, 0xF0, 0x20, 0x60, 0x20, 0x20, 0x70,
   0xF0, 0x10, 0xF0, 0x80, 0xF0, 0xF0, 0x10, 0xF0, 0x10, 0xF0,
   0x90, 0x90, 0xF0, 0x10, 0x10, 0xF0, 0x80, 0xF0, 0x10, 0xF0,
   0xF0, 0x80, 0xF0, 0x90, 0xF0, 0xF0, 0x10, 0x20, 0x40, 0x40,
   0xF0, 0x90, 0xF0, 0x90, 0xF0, 0xF0, 0x90, 0xF0, 0x10, 0xF0,
   0xF0, 0x90, 0xF0, 0x90, 0x90, 0xE0, 0x90, 0xE0, 0x90, 0xE0,
   0xF0, 0x80, 0x80, 0x80, 0xF0, 0xE0, 0x90, 0x90, 0x90, 0xE0,
   0xF0, 0x80, 0xF0, 0x80, 0xF0, 0xF0, 0x80, 0xF0, 0x80, 0x80]

/-- `Memory.buf` is declared `[0xFFF]byte` in `c8.go`, i.e. 4095 bytes:
the valid indices are `0 ≤ a < 0xFFF`. -/
def MemorySize : Nat := 0xFFF

/-- The byte array of `Memory` is modelled as a function on indices; the
array bound `MemorySize` is enforced by `readMem`/`writeMem` below. -/
def Mem : Type := Nat → Nat

/-- A Go read `m.buf[a]`: panics (modelled `none`) unless `a < 0xFFF`. -/
def readMem (mem : Mem) (a : Nat) : Option Nat :=
  if a < MemorySize then some (mem a) else none

/-- A Go store `m.buf[a] = v`: panics (modelled `none`) unless `a < 0xFFF`. -/
def writeMem (mem : Mem) (a v : Nat) : Option Mem :=
  if a < MemorySize then some (fun b => if b = a then v else mem b) else none

/-- `NewMemory()`: the 80 font bytes at addresses 0..79, all other array
entries zero (a Go array literal zero-fills the unlisted entries). -/
def NewMemory : Mem :=
  fun a => FONT.getD a 0

/-- `Memory.Load`: `f.Read(m.buf[0x200:])` copies at most
`0xFFF - 0x200` program bytes into the program region starting at `0x200`,
leaving the rest of the array unchanged. -/
def loadMem (mem : Mem) (prog : List Nat) : Mem :=
  fun a =>
    if 0x200 ≤ a ∧ a < 0x200 + min prog.length (MemorySize - 0x200) then
      prog.getD (a - 0x200) 0
    else mem a

/-- The register part of `Cpu` (`c8.go`): `v [64]uint8`, `i`, `stack
[16]uint16`, `sp`, `pc`, `dt`, `st` (all `uint16`).  The `rand.Rand` and the
two timestamps are replaced by explicit `Tick` parameters. -/
structure Cpu where
  v : List Nat
  i : Nat
  stack : List Nat
  sp : Nat
  pc : Nat
  dt : Nat
  st : Nat
deriving DecidableEq

/-- `NewCpu()`: Go zero value except `pc = 0x200`. -/
def NewCpu : Cpu :=
  { v := List.replicate 64 0
    i := 0
    stack := List.replicate 16 0
    sp := 0
    pc := 0x200
    dt := 0
    st := 0 }

/-- `Keyboard.Pop`: remove and return the front of the queue, `none` when
empty. -/
def Keyboard.Pop : List Nat → Option (Nat × List Nat)
  | [] => none
  | k :: rest => some (k, rest)

/-- The `Ex9E`/`ExA1` drain loop: pop every queued key and remember whether
any of them equals `vx`. -/
def drainPressed (vx : Nat) : List Nat → Bool
  | [] => false
  | k :: rest => (k == vx) || drainPressed vx rest

/-- The post-action `Command` of `c8.go` with its three implementations
`Next`, `Jump` and `Skip`. -/
inductive Command where
  | next
  | jump (addr : Nat)
  | skip
deriving DecidableEq

/-- `exec` of the three `Command` implementations: `Next` does
`cpu.pc += 2`, `Jump` does `cpu.pc = addr`, `Skip` does `cpu.pc += 4`
(`uint16` arithmetic). -/
def Command.exec : Command → Cpu → Cpu
  | .next, c => { c with pc := (c.pc + 2) % 65536 }
  | .jump a, c => { c with pc := a }
  | .skip, c => { c with pc := (c.pc + 4) % 65536 }

/-- A bounds-checked Go array store `l[a] = v`: `none` models the index
panic when `a` is outside the array. -/
def writeArr (l : List Nat) (a v : Nat) : Option (List Nat) :=
  if a < l.length then some (l.set a v) else none

/-- The `Fx55` loop: for each `n` of `ns`, `mem.buf[i+n] = v[n]`
(`uint16` index arithmetic, bounds-checked store). -/
def storeLoop (v : List Nat) (i : Nat) : Mem → List Nat → Option Mem
  | mem, [] => some mem
  | mem, n :: rest =>
    match writeMem mem ((i + n) % 65536) (v.getD n 0) with
    | none => none
    | some mem1 => storeLoop v i mem1 rest

/-- The `Fx65` loop: for each `n` of `ns`, `v[n] = mem.buf[i+n]`
(bounds-checked load). -/
def loadLoop (mem : Mem) (i : Nat) : List Nat → List Nat → Option (List Nat)
  | v, [] => some v
  | v, n :: rest =>
    match readMem mem ((i + n) % 65536) with
    | none => none
    | some b => loadLoop mem i (v.set n b) rest

/-- The trailing timer block of `Cpu.Tick`: when at least 1/60 s elapsed
(`dtick` / `stick`) and the counter is positive, decrement it.  The two
source blocks run in sequence but touch the disjoint fields `dt` and `st`,
so they are one record update. -/
def tickTimers (c : Cpu) (dtick stick : Bool) : Cpu :=
  { c with dt := if dtick ∧ c.dt > 0 then c.dt - 1 else c.dt
           st := if stick ∧ c.st > 0 then c.st - 1 else c.st }

/-- The whole machine `Cpu.Tick` acts on: the CPU, `Memory.buf`,
the `VideoMemory` and the `Keyboard` queue. -/
structure Machine where
  cpu : Cpu
  mem : Mem
  vme : VideoMemory
  kq : List Nat

/-- The machine `main()` builds before a ROM starts: fresh CPU, font-holding
memory with the program image loaded at 0x200, zero video planes, empty
key queue. -/
def initMachine (prog : List Nat) : Machine :=
  { cpu := NewCpu
    mem := loadMem NewMemory prog
    vme := NewVideoMemory
    kq := [] }

/-- The big opcode `switch` of `Cpu.Tick`, acting on the two fetched
instruction bytes: returns the updated machine together with the
post-action `cmd` (Go's nil `cmd` is `none`); a Go runtime panic (array
index or slice out of range) is the outer `none`.  Go `switch` statements
are translated as `if`-chains, and a `switch` that matches no case leaves
`cmd` nil exactly as the source does. -/
def execOp (m : Machine) (rnd : Nat) (b0 b1 : Nat) : Option (Machine × Option Command) :=
    let o1 := b0 / 16
    let o2 := b0 % 16
    let o3 := b1 / 16
    let o4 := b1 % 16
    let nnn := o2 * 256 + o3 * 16 + o4
    let kk := o3 * 16 + o4
    let x := o2
    let y := o3
    let vx := m.cpu.v.getD x 0
    let vy := m.cpu.v.getD y 0
    let xy := vx + vy
      if o1 = 0x0 then
        if o2 = 0x0 then
          if o3 = 0xE then
            if o4 = 0x0 then
              -- 00E0 CLS
              some ({ m with vme := m.vme.clear }, some .next)
            else if o4 = 0xE then
              -- 00EE RET: read stack[sp-1], decrement sp, jump to saved+2
              match m.cpu.stack[(m.cpu.sp + 65535) % 65536]? with
              | none => none
              | some pcv =>
                some ({ m with cpu := { m.cpu with sp := (m.cpu.sp + 65535) % 65536 } },
                      some (.jump ((pcv + 2) % 65536)))
            else some (m, none)
          else some (m, none)
        else
          -- SYS addr
          some (m, some (.jump nnn))
      else if o1 = 0x1 then
        some (m, some (.jump nnn))
      else if o1 = 0x2 then
        -- 2nnn CALL: stack[sp] = pc, sp += 1
        match writeArr m.cpu.stack m.cpu.sp m.cpu.pc with
        | none => none
        | some st1 =>
          some ({ m with cpu := { m.cpu with stack := st1, sp := (m.cpu.sp + 1) % 65536 } },
                some (.jump nnn))
      else if o1 = 0x3 then
        some (m, some (if vx = kk then .skip else .next))
      else if o1 = 0x4 then
        some (m, some (if vx ≠ kk then .skip else .next))
      else if o1 = 0x5 then
        some (m, some (if vx = vy then .skip else .next))
      else if o1 = 0x6 then
        some ({ m with cpu := { m.cpu with v := m.cpu.v.set x kk } }, some .next)
      else if o1 = 0x7 then
        some ({ m with cpu := { m.cpu with v := m.cpu.v.set x ((vx + kk) % 256) } }, some .next)
      else if o1 = 0x8 then
        let v := m.cpu.v
        let v' :=
          if o4 = 0x0 then v.set x vy
          else if o4 = 0x1 then v.set x (vx ||| vy)
          else if o4 = 0x2 then v.set x (vx &&& vy)
          else if o4 = 0x3 then v.set x (vx ^^^ vy)
          else if o4 = 0x4 then
            (v.set 15 (if xy > 0xFF then 1 else 0)).set x (xy % 256)
          else if o4 = 0x5 then
            (v.set 15 (if vx > vy then 1 else 0)).set x ((vx + 65536 - vy) % 65536 % 256)
          else if o4 = 0x6 then
            let v1 := v.set 15 (vx % 2)
            v1.set x (v1.getD x 0 / 2)
          else if o4 = 0x7 then
            (v.set 15 (if vy > vx then 1 else 0)).set x ((vy + 65536 - vx) % 65536 % 256)
          else if o4 = 0xE then
            let v1 := v.set 15 (v.getD x 0 / 128)
            v1.set x (v1.getD x 0 * 2 % 256)
          else v
        some ({ m with cpu := { m.cpu with v := v' } }, some .next)
      else if o1 = 0x9 then
        some (m, some (if vx ≠ vy then .skip else .next))
      else if o1 = 0xA then
        some ({ m with cpu := { m.cpu with i := nnn } }, some .next)
      else if o1 = 0xB then
        some (m, some (.jump ((nnn + m.cpu.v.getD 0 0) % 65536)))
      else if o1 = 0xC then
        some ({ m with cpu := { m.cpu with v := m.cpu.v.set x (rnd % 256 &&& kk) } }, some .next)
      else if o1 = 0xD then
        -- Dxyn: bytes := mem.buf[i : i+n] (Go slice bounds), then blit
        let n := o4
        let hi := (m.cpu.i + n) % 65536
        if m.cpu.i ≤ hi ∧ hi ≤ MemorySize then
          let rows := (List.range (hi - m.cpu.i)).map fun k => m.mem (m.cpu.i + k)
          match draw m.vme.buf vx vy rows with
          | none => none
          | some (p1, vf) =>
            some ({ m with vme := { m.vme with buf := p1 },
                           cpu := { m.cpu with v := m.cpu.v.set 15 vf } },
                  some .next)
        else none
      else if o1 = 0xE then
        if o3 = 0x9 then
          some ({ m with kq := [] },
                some (if drainPressed vx m.kq then .skip else .next))
        else if o3 = 0xA then
          some ({ m with kq := [] },
                some (if ¬drainPressed vx m.kq then .skip else .next))
        else some (m, none)
      else if o1 = 0xF then
        if o3 = 0x0 then
          if o4 = 0x7 then
            some ({ m with cpu := { m.cpu with v := m.cpu.v.set x (m.cpu.dt % 256) } },
                  some .next)
          else if o4 = 0xA then
            match Keyboard.Pop m.kq with
            | none => some (m, none)
            | some (k, rest) =>
              some ({ m with cpu := { m.cpu with v := m.cpu.v.set x (k % 256) }, kq := rest },
                    some .next)
          else some (m, none)
        else if o3 = 0x1 then
          if o4 = 0x5 then
            some ({ m with cpu := { m.cpu with dt := vx } }, some .next)
          else if o4 = 0x8 then
            some ({ m with cpu := { m.cpu with st := vx } }, some .next)
          else if o4 = 0xE then
            some ({ m with cpu := { m.cpu with i := (m.cpu.i + vx) % 65536 } }, some .next)
          else some (m, none)
        else if o3 = 0x2 then
          some ({ m with cpu := { m.cpu with i := vx * 5 % 65536 } }, some .next)
        else if o3 = 0x3 then
          match writeMem m.mem m.cpu.i (vx % 256 / 100 % 10) with
          | none => none
          | some m1 =>
          match writeMem m1 ((m.cpu.i + 1) % 65536) (vx % 256 / 10 % 10) with
          | none => none
          | some m2 =>
          match writeMem m2 ((m.cpu.i + 2) % 65536) (vx % 256 % 10) with
          | none => none
          | some m3 => some ({ m with mem := m3 }, some .next)
        else if o3 = 0x5 then
          match storeLoop m.cpu.v m.cpu.i m.mem (List.range (x + 1)) with
          | none => none
          | some mem1 => some ({ m with mem := mem1 }, some .next)
        else if o3 = 0x6 then
          match loadLoop m.mem m.cpu.i m.cpu.v (List.range (x + 1)) with
          | none => none
          | some v1 => some ({ m with cpu := { m.cpu with v := v1 } }, some .next)
        else some (m, none)
      else some (m, none)

/-- `Cpu.Tick` of `c8.go`: fetch the two instruction bytes at PC, run the
opcode `switch` (`execOp`), execute the post-action when `cmd` is not
nil, then run the timer block.  `rnd` is the byte the `Cxkk` generator
would produce, `dtick`/`stick` say whether 1/60 s elapsed for the
delay / sound timer; `none` models a Go runtime panic. -/
def Tick (m : Machine) (rnd : Nat) (dtick stick : Bool) : Option Machine :=
  match readMem m.mem m.cpu.pc with
  | none => none
  | some b0 =>
  match readMem m.mem ((m.cpu.pc + 1) % 65536) with
  | none => none
  | some b1 =>
    match execOp m rnd b0 b1 with
    | none => none
    | some (m1, cmd) =>
      let cpu1 :=
        match cmd with
        | some c => c.exec m1.cpu
        | none => m1.cpu
      some { m1 with cpu := tickTimers cpu1 dtick stick }

/-- One observable CPU tick: some choice of random byte and timer phases
takes `m` to `m'` without panicking. -/
def StepRel (m m' : Machine) : Prop :=
  ∃ rnd dtick stick, Tick m rnd dtick stick = some m'

/-- Machine states reachable from a freshly loaded program image by any
sequence of CPU ticks. -/
def Reach (prog : List Nat) (m : Machine) : Prop :=
  Relation.ReflTransGen StepRel (initMachine prog) m

/-- Modelled from the spec: the normative font table of §6 (glyphs for hex
digits 0..F, five bytes each, addresses 0..79 in digit order), used to
compare the code's font table against the specification. -/
def specFont : List Nat :=
  [0xF0, 0x90, 0x90, 0x90, 0xF0,  0x20, 0x60, 0x20, 0x20, 0x70,
   0xF0, 0x10, 0xF0, 0x80, 0xF0,  0xF0, 0x10, 0xF0, 0x10, 0xF0,
   0x90, 0x90, 0xF0, 0x10, 0x10,  0xF0, 0x80, 0xF0, 0x10, 0xF0,
   0xF0, 0x80, 0xF0, 0x90, 0xF0,  0xF0, 0x10, 0x20, 0x40, 0x40,
   0xF0, 0x90, 0xF0, 0x90, 0xF0,  0xF0, 0x90, 0xF0, 0x10, 0xF0,
   0xF0, 0x90, 0xF0, 0x90, 0x90,  0xE0, 0x90, 0xE0, 0x90, 0xE0,
   0xF0, 0x80, 0x80, 0x80, 0xF0,  0xE0, 0x90, 0x90, 0x90, 0xE0,
   0xF0, 0x80, 0xF0, 0x80, 0xF0,  0xF0, 0x80, 0xF0, 0x80, 0x80]

/-- The five spec-normative font bytes of hex digit `d`. -/
def specGlyph (d : Nat) : List Nat :=
  (specFont.drop (d * 5)).take 5

/-- Bit `7-k` of a sprite row byte, the bit `VideoMemory.draw` sends to
x-offset `k`. -/
def bitOf (byt k : Nat) : Nat :=
  byt / 2 ^ (7 - k) % 2

/-! ## Theorems -/

/-- Projections of the timer block: `tickTimers` only touches `dt` and
`st`. -/
theorem tickTimers_fields (c : Cpu) (dtick stick : Bool) :
    (tickTimers c dtick stick).pc = c.pc ∧ (tickTimers c dtick stick).v = c.v ∧
    (tickTimers c dtick stick).i = c.i ∧ (tickTimers c dtick stick).sp = c.sp ∧
    (tickTimers c dtick stick).stack = c.stack :=
  ⟨rfl, rfl, rfl, rfl, rfl⟩

/-- C1: the core has no fault values at all; instructions that the spec
says must fault instead index a Go array out of range and panic the host
(modelled `none`).  Shown at four reachable inputs: `00EE` (RET) with
`sp = 0` at the entry of a freshly loaded program, `2nnn` (CALL) with
`sp = 16`, `Dxyn` slicing memory past `0xFFF`, and `Dxyn` drawing at
`Vx = 200`, which indexes column 200 of the 64-wide framebuffer. -/
theorem tick_panics_not_faults :
    Tick (initMachine [0x00, 0xEE]) 0 false false = none ∧
    Tick { initMachine [0x22, 0x04] with cpu := { NewCpu with sp := 16 } } 0 false false = none ∧
    Tick { initMachine [0xD0, 0x01] with cpu := { NewCpu with i := 4095 } } 0 false false = none ∧
    Tick { initMachine [0xD0, 0x01] with
           cpu := { NewCpu with v := (List.replicate 64 0).set 0 200 } } 0 false false = none :=
  ⟨rfl, rfl, rfl, rfl⟩

/-- C2: `VideoMemory.draw` neither wraps coordinates modulo (64, 32) nor
clips pixels past the right/bottom edge: a sprite whose body crosses
column 63 indexes the 64-wide plane out of range and panics (modelled
`none`).  At origin (60, 0) with sprite byte `0x01`, the claim predicts
the single on-bit lands at ((60+7) mod 64, 0) = (3, 0); the code instead
accesses column 67 and dies, both at `draw` level and for a full `Dxyn`
tick. -/
theorem draw_out_of_range_panics :
    draw (fun _ _ => 0) 60 0 [1] = none ∧
    Tick { initMachine [0xD0, 0x01] with
           cpu := { NewCpu with v := (List.replicate 64 0).set 0 60 } } 0 false false = none :=
  ⟨rfl, rfl⟩

/-- C3: `Memory.buf` is `[0xFFF]byte`, i.e. 4095 bytes, not 4096 as both
the spec and the source comment state: address 4094 is the last valid
byte and address 4095 faults. -/
theorem memory_size_4095 :
    MemorySize = 4095 ∧ readMem NewMemory 4094 = some 0 ∧
    readMem NewMemory 4095 = none ∧ writeMem NewMemory 4095 0 = none :=
  ⟨rfl, rfl, rfl, rfl⟩

/-- C4 (counterexample): opcode `8xy8` is not one of the listed `8xy?`
instructions, yet executing it produces no fault: the tick succeeds,
PC advances by 2 and every register, the stack and the key queue are
unchanged — exactly the silent no-op the claim rules out. -/
theorem unknown_8xy8_noop_cex :
    (Tick (initMachine [0x80, 0x08]) 0 false false).map
      (fun m => (m.cpu.pc, m.cpu.v, m.cpu.i, m.cpu.sp, m.cpu.stack, m.cpu.dt, m.cpu.st, m.kq))
      = some (514, List.replicate 64 0, 0, 0, List.replicate 16 0, 0, 0, ([] : List Nat)) :=
  rfl

/-- C4 (amended): an unrecognized opcode inside the `8xy?` family
(low nibble in {8..13, 15}) silently advances PC by 2 with the machine
otherwise unchanged, and an unrecognized `Fxyy` opcode (shown for the
whole `Fx4y` block) leaves even PC unchanged; no `IllegalInstruction`
fault exists in the core. -/
theorem unknown_opcode_noop :
    (∀ (m : Machine) (rnd : Nat) (dtick stick : Bool) (x b1 : Nat),
      x < 16 →
      readMem m.mem m.cpu.pc = some (128 + x) →
      readMem m.mem ((m.cpu.pc + 1) % 65536) = some b1 →
      8 ≤ b1 % 16 → b1 % 16 ≠ 14 →
      Tick m rnd dtick stick =
        some { m with cpu := tickTimers { m.cpu with pc := (m.cpu.pc + 2) % 65536 } dtick stick }) ∧
    (∀ (m : Machine) (rnd : Nat) (dtick stick : Bool) (x b1 : Nat),
      x < 16 →
      readMem m.mem m.cpu.pc = some (240 + x) →
      readMem m.mem ((m.cpu.pc + 1) % 65536) = some b1 →
      b1 / 16 = 4 →
      Tick m rnd dtick stick = some { m with cpu := tickTimers m.cpu dtick stick }) := by
  constructor
  · intro m rnd dtick stick x b1 hx hb0 hb1 hge hne
    have ho1 : (128 + x) / 16 = 8 := by omega
    have ho2 : (128 + x) % 16 = x := by omega
    have hcase : b1 % 16 = 8 ∨ b1 % 16 = 9 ∨ b1 % 16 = 10 ∨ b1 % 16 = 11 ∨
        b1 % 16 = 12 ∨ b1 % 16 = 13 ∨ b1 % 16 = 15 := by omega
    rcases hcase with h | h | h | h | h | h | h <;>
      · simp only [Tick, execOp, hb0, hb1, ho1, ho2, h]
        norm_num [Command.exec]
  · intro m rnd dtick stick x b1 hx hb0 hb1 ho3
    have ho1 : (240 + x) / 16 = 15 := by omega
    simp only [Tick, execOp, hb0, hb1, ho1, ho3]
    norm_num

/-- Witness for `unknown_opcode_noop`: both parts applied to concrete
machines — opcode `8008` at a fresh entry advances PC to 514, opcode
`F040` leaves the fresh machine unchanged. -/
theorem unknown_opcode_noop_witness :
    Tick (initMachine [0x80, 0x08]) 0 false false =
      some { initMachine [0x80, 0x08] with
             cpu := tickTimers { (initMachine [0x80, 0x08]).cpu with
                                 pc := ((initMachine [0x80, 0x08]).cpu.pc + 2) % 65536 }
                      false false } ∧
    Tick (initMachine [0xF0, 0x40]) 0 false false =
      some { initMachine [0xF0, 0x40] with
             cpu := tickTimers (initMachine [0xF0, 0x40]).cpu false false } :=
  ⟨unknown_opcode_noop.1 (initMachine [0x80, 0x08]) 0 false false 0 8 (by decide) rfl rfl
      (by decide) (by decide),
   unknown_opcode_noop.2 (initMachine [0xF0, 0x40]) 0 false false 0 0x40 (by decide) rfl rfl
      (by decide)⟩

/-- C5: `Fx0A` with an empty key queue sets no command, so PC, all
registers, the memory, the planes and the queue are untouched (only the
wall-clock timer block may decrement `dt`/`st`) and the instruction
re-executes next tick; with a non-empty queue it pops exactly the oldest
key, stores it into Vx and advances PC by 2. -/
theorem Fx0A_wait_and_pop (m : Machine) (rnd : Nat) (dtick stick : Bool) (x : Nat)
    (hx : x < 16)
    (hb0 : readMem m.mem m.cpu.pc = some (240 + x))
    (hb1 : readMem m.mem ((m.cpu.pc + 1) % 65536) = some 0x0A) :
    (m.kq = [] → Tick m rnd dtick stick = some { m with cpu := tickTimers m.cpu dtick stick }) ∧
    (∀ k rest, m.kq = k :: rest →
      Tick m rnd dtick stick =
        some { m with
               cpu := tickTimers
                 { m.cpu with
                   v := m.cpu.v.set x (k % 256)
                   pc := (m.cpu.pc + 2) % 65536 } dtick stick
               kq := rest }) := by
  have ho1 : (240 + x) / 16 = 15 := by omega
  have ho2 : (240 + x) % 16 = x := by omega
  constructor
  · intro hkq
    simp only [Tick, execOp, hb0, hb1, ho1, ho2, hkq, Keyboard.Pop]
    norm_num
    exact hkq
  · intro k rest hkq
    simp only [Tick, execOp, hb0, hb1, ho1, ho2, hkq, Keyboard.Pop]
    norm_num [Command.exec]

/-- Witness for `Fx0A_wait_and_pop`: a fresh machine spinning on `F30A`
keeps PC at 0x200 with everything unchanged. -/
theorem Fx0A_wait_and_pop_witness :
    Tick (initMachine [0xF3, 0x0A]) 0 false false =
      some { initMachine [0xF3, 0x0A] with
             cpu := tickTimers (initMachine [0xF3, 0x0A]).cpu false false } :=
  (Fx0A_wait_and_pop (initMachine [0xF3, 0x0A]) 0 false false 3 (by decide) rfl rfl).1 rfl

/-- C8 (counterexample): with `V0 = 16` (low nibble 0), `F029` sets
`I = 80` and `M[80..85)` is all zero in a fresh memory, not the normative
glyph `F0 90 90 90 F0` of digit 0 — the glyph property fails as soon as
`Vx > 0xF`. -/
theorem Fx29_high_vx_cex :
    ((Tick (initMachine [0x60, 0x10, 0xF0, 0x29]) 0 false false).bind
        (fun m1 => Tick m1 0 false false)).map
      (fun m2 => (m2.cpu.i, (List.range 5).map (fun k => m2.mem (80 + k))))
      = some (80, [0, 0, 0, 0, 0]) ∧
    specGlyph 0 = [0xF0, 0x90, 0x90, 0x90, 0xF0] ∧
    ([0, 0, 0, 0, 0] : List Nat) ≠ [0xF0, 0x90, 0x90, 0x90, 0xF0] :=
  ⟨rfl, rfl, by decide⟩

/-- C8 (amended): `F029` always sets `I ← Vx * 5` (for byte-valued `Vx`
the `uint16` product does not wrap), and for `Vx ≤ 0xF` the five bytes of
a fresh memory starting at `Vx * 5` are exactly the normative glyph of
`Vx`; for `Vx ≥ 16` the address `Vx * 5 ≥ 80` lies outside the font
table and the glyph property is not guaranteed. -/
theorem Fx29_sets_font_address :
    (∀ d, d < 16 → (List.range 5).map (fun k => NewMemory (d * 5 + k)) = specGlyph d) ∧
    (∀ (m : Machine) (rnd : Nat) (dtick stick : Bool) (x : Nat),
      x < 16 →
      readMem m.mem m.cpu.pc = some (240 + x) →
      readMem m.mem ((m.cpu.pc + 1) % 65536) = some 0x29 →
      m.cpu.v.getD x 0 ≤ 255 →
      Tick m rnd dtick stick =
        some { m with
               cpu := tickTimers
                 { m.cpu with
                   i := m.cpu.v.getD x 0 * 5
                   pc := (m.cpu.pc + 2) % 65536 } dtick stick }) := by
  constructor
  · decide
  · intro m rnd dtick stick x hx hb0 hb1 hvx
    have ho1 : (240 + x) / 16 = 15 := by omega
    have ho2 : (240 + x) % 16 = x := by omega
    have hmod : m.cpu.v.getD x 0 * 5 % 65536 = m.cpu.v.getD x 0 * 5 :=
      Nat.mod_eq_of_lt (by omega)
    simp only [Tick, execOp, hb0, hb1, ho1, ho2, hmod]
    norm_num [Command.exec]

/-- Witness for `Fx29_sets_font_address`: digit 7's glyph sits at
`7 * 5 = 35`, and a fresh machine executing `F029` with `V0 = 0` gets
`I = 0`. -/
theorem Fx29_sets_font_address_witness :
    (List.range 5).map (fun k => NewMemory (7 * 5 + k)) = specGlyph 7 ∧
    Tick (initMachine [0xF0, 0x29]) 0 false false =
      some { initMachine [0xF0, 0x29] with
             cpu := tickTimers
               { (initMachine [0xF0, 0x29]).cpu with
                 i := (initMachine [0xF0, 0x29]).cpu.v.getD 0 0 * 5
                 pc := ((initMachine [0xF0, 0x29]).cpu.pc + 2) % 65536 } false false } :=
  ⟨Fx29_sets_font_address.1 7 (by decide),
   Fx29_sets_font_address.2 (initMachine [0xF0, 0x29]) 0 false false 0 (by decide) rfl rfl
     (by decide)⟩

/-- C9 (counterexample): `Next.exec` at PC = 4094 yields PC = 4096, but
`(4094 + 2) mod 4096 = 0`; the new PC is neither reduced modulo 4096 nor
below 4096. -/
theorem pc_wrap_cex :
    (Command.exec .next { NewCpu with pc := 4094 }).pc = 4096 ∧
    (4094 + 2) % 4096 = 0 ∧
    (Command.exec .next { NewCpu with pc := 4094 }).pc ≠ (4094 + 2) % 4096 ∧
    ¬ (Command.exec .next { NewCpu with pc := 4094 }).pc < 4096 := by
  refine ⟨rfl, rfl, ?_, ?_⟩ <;> decide

/-- C9 (amended): the `Next` and `Skip` post-actions advance PC by 2
respectively 4 modulo 65536 (`uint16` wrap-around), `Jump` sets it
verbatim; the result is not reduced modulo 4096 and can reach addresses
at or above 4096. -/
theorem pc_post_actions_mod_65536 :
    (∀ c : Cpu, (Command.exec .next c).pc = (c.pc + 2) % 65536) ∧
    (∀ c : Cpu, (Command.exec .skip c).pc = (c.pc + 4) % 65536) ∧
    (∀ (a : Nat) (c : Cpu), (Command.exec (.jump a) c).pc = a) ∧
    ¬ (∀ c : Cpu, (Command.exec .next c).pc < 4096) := by
  refine ⟨fun c => rfl, fun c => rfl, fun a c => rfl, fun hall => ?_⟩
  have h := hall { NewCpu with pc := 4094 }
  norm_num [Command.exec] at h

set_option maxHeartbeats 3200000 in
/-- The opcode switch never touches the current plane `vme.mem`: only the
pending plane `vme.buf` is written (by `00E0` and `Dxyn`). -/
theorem execOp_preserves_vmem (m : Machine) (rnd b0 b1 : Nat) (m1 : Machine)
    (cmd : Option Command) (h : execOp m rnd b0 b1 = some (m1, cmd)) :
    m1.vme.mem = m.vme.mem := by
  unfold execOp at h
  simp only [] at h
  by_cases hlt : b0 / 16 < 16
  · have hcase : b0 / 16 = 0 ∨ b0 / 16 = 1 ∨ b0 / 16 = 2 ∨ b0 / 16 = 3 ∨ b0 / 16 = 4 ∨
        b0 / 16 = 5 ∨ b0 / 16 = 6 ∨ b0 / 16 = 7 ∨ b0 / 16 = 8 ∨ b0 / 16 = 9 ∨
        b0 / 16 = 10 ∨ b0 / 16 = 11 ∨ b0 / 16 = 12 ∨ b0 / 16 = 13 ∨ b0 / 16 = 14 ∨
        b0 / 16 = 15 := by omega
    rcases hcase with h1|h1|h1|h1|h1|h1|h1|h1|h1|h1|h1|h1|h1|h1|h1|h1 <;>
    · simp only [h1] at h
      norm_num at h
      repeat' split at h
      all_goals first
        | (cases h; rfl)
        | (simp only [Option.some.injEq, Prod.mk.injEq] at h; obtain ⟨hA, hB⟩ := h; subst hA; rfl)
        | (obtain ⟨hA, hB⟩ := h; subst hA; rfl)
        | (obtain ⟨hcnd, hrest⟩ := h; cases hrest; rfl)
        | (subst h; rfl)
        | simp at h
  · have c0 : ¬ b0 / 16 = 0 := by omega
    have c1 : ¬ b0 / 16 = 1 := by omega
    have c2 : ¬ b0 / 16 = 2 := by omega
    have c3 : ¬ b0 / 16 = 3 := by omega
    have c4 : ¬ b0 / 16 = 4 := by omega
    have c5 : ¬ b0 / 16 = 5 := by omega
    have c6 : ¬ b0 / 16 = 6 := by omega
    have c7 : ¬ b0 / 16 = 7 := by omega
    have c8 : ¬ b0 / 16 = 8 := by omega
    have c9 : ¬ b0 / 16 = 9 := by omega
    have c10 : ¬ b0 / 16 = 10 := by omega
    have c11 : ¬ b0 / 16 = 11 := by omega
    have c12 : ¬ b0 / 16 = 12 := by omega
    have c13 : ¬ b0 / 16 = 13 := by omega
    have c14 : ¬ b0 / 16 = 14 := by omega
    have c15 : ¬ b0 / 16 = 15 := by omega
    simp only [c0, c1, c2, c3, c4, c5, c6, c7, c8, c9, c10, c11, c12, c13, c14, c15,
      if_false, Option.some.injEq, Prod.mk.injEq] at h
    obtain ⟨hA, hB⟩ := h
    subst hA
    rfl

/-- One successful `Cpu.Tick` leaves the current plane `vme.mem` unchanged:
the fetch, the opcode switch, the post-action and the timer block never
write it. -/
theorem Tick_preserves_vmem (m : Machine) (rnd : Nat) (dtick stick : Bool) (m' : Machine)
    (h : Tick m rnd dtick stick = some m') : m'.vme.mem = m.vme.mem := by
  simp only [Tick] at h
  split at h
  · exact absurd h (by simp)
  split at h
  · exact absurd h (by simp)
  split at h
  · exact absurd h (by simp)
  next m1 cmd hstep =>
    cases h
    have hpres := execOp_preserves_vmem _ _ _ _ m1 cmd hstep
    exact hpres

/-- C10: the current plane `VideoMemory.mem` is never written by any core
operation — `clear` and `draw` touch only the pending plane `buf`, and
nothing publishes `buf` to `mem` — so from a freshly loaded machine it
stays all-zero across every sequence of CPU ticks, whatever program runs
and whatever keys or random bytes arrive. -/
theorem current_plane_stays_zero (prog : List Nat) (m : Machine)
    (h : Reach prog m) : ∀ a b, m.vme.mem a b = 0 := by
  induction h with
  | refl => intro a b; rfl
  | tail _ hstep ih =>
    obtain ⟨rnd, dtick, stick, ht⟩ := hstep
    intro a b
    rw [Tick_preserves_vmem _ _ _ _ _ ht]
    exact ih a b

/-- Witness for `current_plane_stays_zero`: the freshly loaded machine is
reachable (zero ticks) and its current plane reads 0. -/
theorem current_plane_stays_zero_witness :
    (initMachine [0x00, 0xE0]).vme.mem 3 5 = 0 :=
  current_plane_stays_zero [0x00, 0xE0] (initMachine [0x00, 0xE0])
    Relation.ReflTransGen.refl 3 5

/-- Writing back the value a list already holds at `n` changes nothing. -/
theorem set_getD_self : ∀ (l : List Nat) (n : Nat), n < l.length → l.set n (l.getD n 0) = l
  | _ :: _, 0, _ => rfl
  | a :: l, n + 1, h => by
    simp only [List.set_cons_succ, List.getD_cons_succ]
    rw [set_getD_self l n (by simpa using h)]

/-- Reading two memories that agree at `a` gives the same result. -/
theorem readMem_congr (mem mem' : Mem) (a : Nat) (hv : mem' a = mem a) :
    readMem mem' a = readMem mem a := by
  unfold readMem
  rw [hv]

/-- The `Fx55` store loop succeeds when every target address is inside the
array, changes no other address, and writes `v[n]` to `i+n` for each index
`n` of the (duplicate-free) index list. -/
theorem storeLoop_spec (v : List Nat) (i : Nat) :
    ∀ (ns : List Nat) (mem : Mem), (∀ n ∈ ns, i + n < MemorySize) → ns.Nodup →
      ∃ mem', storeLoop v i mem ns = some mem' ∧
        (∀ a, (∀ n ∈ ns, a ≠ i + n) → mem' a = mem a) ∧
        (∀ n ∈ ns, mem' (i + n) = v.getD n 0) := by
  intro ns
  induction ns with
  | nil =>
    intro mem _ _
    exact ⟨mem, rfl, fun a _ => rfl, by simp⟩
  | cons n rest ih =>
    intro mem hb hnd
    have hin : i + n < MemorySize := hb n (by simp)
    have hmod : (i + n) % 65536 = i + n := Nat.mod_eq_of_lt (by have h4 : MemorySize = 4095 := rfl; omega)
    obtain ⟨mem', hs, hun, hto⟩ := ih (fun b => if b = i + n then v.getD n 0 else mem b)
      (fun q hq => hb q (by simp [hq])) hnd.of_cons
    refine ⟨mem', ?_, ?_, ?_⟩
    · simp only [storeLoop, writeMem, hmod, if_pos hin]
      exact hs
    · intro a ha
      rw [hun a (fun q hq => ha q (by simp [hq]))]
      simp [ha n (by simp)]
    · intro q hq
      rcases List.mem_cons.mp hq with rfl | hq2
      · have hnotin : ∀ p ∈ rest, i + q ≠ i + p := by
          intro p hp hpe
          have hqp : q = p := by omega
          subst hqp
          exact (List.nodup_cons.mp hnd).1 hp
        rw [hun (i + q) hnotin]
        simp
      · exact hto q hq2

/-- The `Fx65` load loop is the identity on `v` when memory already holds
`v[n]` at each address `i+n`. -/
theorem loadLoop_restore (mem : Mem) (i : Nat) :
    ∀ (ns : List Nat) (v : List Nat),
      (∀ n ∈ ns, i + n < MemorySize) →
      (∀ n ∈ ns, mem (i + n) = v.getD n 0) →
      (∀ n ∈ ns, n < v.length) →
      loadLoop mem i v ns = some v := by
  intro ns
  induction ns with
  | nil => intro v _ _ _; rfl
  | cons n rest ih =>
    intro v hb hv hl
    have hin : i + n < MemorySize := hb n (by simp)
    have hmod : (i + n) % 65536 = i + n := Nat.mod_eq_of_lt (by have h4 : MemorySize = 4095 := rfl; omega)
    simp only [loadLoop, readMem, hmod, if_pos hin]
    rw [hv n (by simp), set_getD_self v n (hl n (by simp))]
    exact ih v (fun q hq => hb q (by simp [hq])) (fun q hq => hv q (by simp [hq]))
      (fun q hq => hl q (by simp [hq]))

/-- C7: executing `Fx55` and then immediately `Fx65` with the same `x` and
the same (unmodified) `I` restores `V[0..=x]` byte-for-byte — in fact the
whole register file — and neither instruction modifies `I`; the
hypotheses ask that the stored range lies inside memory and does not
overlap the two instruction bytes fetched next. -/
theorem Fx55_Fx65_roundtrip (m : Machine) (r1 r2 : Nat) (d1 s1 d2 s2 : Bool) (x : Nat)
    (hx : x < 16)
    (hvlen : m.cpu.v.length = 64)
    (hb0 : readMem m.mem m.cpu.pc = some (240 + x))
    (hb1 : readMem m.mem ((m.cpu.pc + 1) % 65536) = some 0x55)
    (hb2 : readMem m.mem ((m.cpu.pc + 2) % 65536) = some (240 + x))
    (hb3 : readMem m.mem ((m.cpu.pc + 3) % 65536) = some 0x65)
    (hbound : m.cpu.i + x < MemorySize)
    (hdisj : ∀ n, n ≤ x →
      m.cpu.i + n ≠ (m.cpu.pc + 2) % 65536 ∧ m.cpu.i + n ≠ (m.cpu.pc + 3) % 65536) :
    ∃ m1 m2, Tick m r1 d1 s1 = some m1 ∧ Tick m1 r2 d2 s2 = some m2 ∧
      m1.cpu.i = m.cpu.i ∧ m2.cpu.i = m.cpu.i ∧ m2.cpu.v = m.cpu.v ∧
      m2.cpu.pc = (m.cpu.pc + 4) % 65536 := by
  have ho1 : (240 + x) / 16 = 15 := by omega
  have ho2 : (240 + x) % 16 = x := by omega
  obtain ⟨mem', hs, hun, hto⟩ := storeLoop_spec m.cpu.v m.cpu.i (List.range (x + 1)) m.mem
    (fun n hn => by have := List.mem_range.mp hn; omega) (List.nodup_range _)
  have ht1 : Tick m r1 d1 s1 =
      some { m with
             mem := mem'
             cpu := tickTimers { m.cpu with pc := (m.cpu.pc + 2) % 65536 } d1 s1 } := by
    simp only [Tick, execOp, hb0, hb1, ho1, ho2, hs]
    norm_num [Command.exec]
  have hb2' : readMem mem' ((m.cpu.pc + 2) % 65536) = some (240 + x) := by
    rw [readMem_congr m.mem mem' _ (hun _ (fun n hn => by
      have := List.mem_range.mp hn
      exact fun he => ((hdisj n (by omega)).1 he.symm)))]
    exact hb2
  have hb3' : readMem mem' ((m.cpu.pc + 3) % 65536) = some 0x65 := by
    rw [readMem_congr m.mem mem' _ (hun _ (fun n hn => by
      have := List.mem_range.mp hn
      exact fun he => ((hdisj n (by omega)).2 he.symm)))]
    exact hb3
  have haddr : ((m.cpu.pc + 2) % 65536 + 1) % 65536 = (m.cpu.pc + 3) % 65536 := by omega
  have hload : loadLoop mem' m.cpu.i m.cpu.v (List.range (x + 1)) = some m.cpu.v :=
    loadLoop_restore mem' m.cpu.i (List.range (x + 1)) m.cpu.v
      (fun n hn => by have := List.mem_range.mp hn; omega)
      (fun n hn => hto n hn)
      (fun n hn => by have := List.mem_range.mp hn; omega)
  have ht2 : Tick { m with
        mem := mem'
        cpu := tickTimers { m.cpu with pc := (m.cpu.pc + 2) % 65536 } d1 s1 } r2 d2 s2 =
      some { m with
             mem := mem'
             cpu := tickTimers
               { tickTimers { m.cpu with pc := (m.cpu.pc + 2) % 65536 } d1 s1 with
                 v := m.cpu.v
                 pc := ((m.cpu.pc + 2) % 65536 + 2) % 65536 } d2 s2 } := by
    simp only [Tick, execOp, tickTimers, hb2', haddr, hb3', ho1, ho2, hload]
    norm_num [Command.exec, tickTimers]
  refine ⟨_, _, ht1, ht2, rfl, rfl, rfl, ?_⟩
  show ((m.cpu.pc + 2) % 65536 + 2) % 65536 = (m.cpu.pc + 4) % 65536
  omega

/-- Witness for `Fx55_Fx65_roundtrip`: program `F155 F165` with `I = 0x300`
on a fresh machine. -/
theorem Fx55_Fx65_roundtrip_witness :
    ∃ m1 m2,
      Tick { initMachine [0xF1, 0x55, 0xF1, 0x65] with cpu := { NewCpu with i := 0x300 } }
          0 false false = some m1 ∧
      Tick m1 0 false false = some m2 ∧
      m1.cpu.i = 0x300 ∧ m2.cpu.i = 0x300 ∧
      m2.cpu.v = (initMachine [0xF1, 0x55, 0xF1, 0x65]).cpu.v ∧
      m2.cpu.pc = 0x204 :=
  Fx55_Fx65_roundtrip
    { initMachine [0xF1, 0x55, 0xF1, 0x65] with cpu := { NewCpu with i := 0x300 } }
    0 0 false false false false 1 (by decide) rfl rfl rfl rfl rfl (by decide)
    (by intro n hn; show 768 + n ≠ 514 ∧ 768 + n ≠ 515; omega)

/-- Characterization of a sequence of `draw_pixcel` calls over in-range,
coordinate-distinct cells: it succeeds, XORs each cell's bit into its
pixel, touches nothing else, and its collision counter is positive iff
some cell hits an on-pixel with an on-bit. -/
theorem drawPixList_spec :
    ∀ (cells : List (Nat × Nat × Nat)) (p : Plane),
      (∀ c ∈ cells, c.1 < H_PIXELS ∧ c.2.1 < V_PIXELS) →
      (cells.map fun c => (c.1, c.2.1)).Nodup →
      cells.length < 65536 →
      ∃ p' vf, drawPixList p cells = some (p', vf) ∧ vf ≤ cells.length ∧
        (∀ a b, (∀ c ∈ cells, ¬(c.1 = a ∧ c.2.1 = b)) → p' a b = p a b) ∧
        (∀ c ∈ cells, p' c.1 c.2.1 = p c.1 c.2.1 ^^^ c.2.2) ∧
        (0 < vf ↔ ∃ c ∈ cells, p c.1 c.2.1 = 1 ∧ c.2.2 = 1) := by
  intro cells
  induction cells with
  | nil =>
    intro p _ _ _
    exact ⟨p, 0, rfl, by simp, fun a b _ => rfl, by simp, by simp⟩
  | cons c rest ih =>
    obtain ⟨cx, cy, cb⟩ := c
    intro p hb hnd hlen
    have hr : cx < H_PIXELS ∧ cy < V_PIXELS := hb (cx, cy, cb) (by simp)
    simp only [List.map_cons, List.nodup_cons] at hnd
    have hnd' := hnd
    obtain ⟨p', vfr, hdl, hvle, hun, hto, hiff⟩ :=
      ih (planeSet p cx cy (p cx cy ^^^ cb))
        (fun c hc => hb c (by simp [hc]))
        hnd'.2 (by simp at hlen ⊢; omega)
    have hv0le : (if p cx cy = 1 ∧ cb = 1 then (1 : Nat) else 0) ≤ 1 := by split <;> omega
    have hlen' : rest.length + 1 < 65536 := by simpa using hlen
    have hmod : ((if p cx cy = 1 ∧ cb = 1 then (1 : Nat) else 0) + vfr) % 65536 =
        (if p cx cy = 1 ∧ cb = 1 then (1 : Nat) else 0) + vfr :=
      Nat.mod_eq_of_lt (by omega)
    refine ⟨p', ((if p cx cy = 1 ∧ cb = 1 then (1 : Nat) else 0) + vfr) % 65536, ?_, ?_, ?_, ?_, ?_⟩
    · simp only [drawPixList, draw_pixcel, if_pos hr, hdl]
    · rw [hmod]
      simp only [List.length_cons]
      omega
    · intro a b ha
      have h1 : p' a b = planeSet p cx cy (p cx cy ^^^ cb) a b :=
        hun a b (fun c hc => ha c (by simp [hc]))
      rw [h1]
      unfold planeSet
      rw [if_neg (fun hh => ha (cx, cy, cb) (by simp) ⟨hh.1.symm, hh.2.symm⟩)]
    · intro c hc
      rcases List.mem_cons.mp hc with rfl | hc2
      · have hnotin2 : ∀ c' ∈ rest, ¬(c'.1 = cx ∧ c'.2.1 = cy) := by
          intro c' hc' hee
          exact hnd'.1 (by
            have : ((cx : Nat), (cy : Nat)) ∈ rest.map (fun c => (c.1, c.2.1)) := by
              refine List.mem_map.mpr ⟨c', hc', ?_⟩
              simp [hee.1, hee.2]
            exact this)
        rw [hun cx cy (fun c' hc' hee => hnotin2 c' hc' ⟨hee.1, hee.2⟩)]
        unfold planeSet
        simp
      · rw [hto c hc2]
        have hcc : ¬(c.1 = cx ∧ c.2.1 = cy) := by
          intro hee
          exact hnd'.1 (by
            refine List.mem_map.mpr ⟨c, hc2, ?_⟩
            simp [hee.1, hee.2])
        unfold planeSet
        rw [if_neg hcc]
    · rw [hmod]
      have hstep : ∀ c ∈ rest, planeSet p cx cy (p cx cy ^^^ cb) c.1 c.2.1 = p c.1 c.2.1 := by
        intro c hc
        have hcc : ¬(c.1 = cx ∧ c.2.1 = cy) := by
          intro hee
          exact hnd'.1 (by
            refine List.mem_map.mpr ⟨c, hc, ?_⟩
            simp [hee.1, hee.2])
        unfold planeSet
        rw [if_neg hcc]
      constructor
      · intro hpos
        by_cases hcol : p cx cy = 1 ∧ cb = 1
        · exact ⟨(cx, cy, cb), by simp, hcol⟩
        · rw [if_neg hcol] at hpos
          simp only [Nat.zero_add] at hpos
          obtain ⟨c, hc, hcp, hcb⟩ := hiff.mp hpos
          exact ⟨c, by simp [hc], by rw [← hstep c hc]; exact hcp, hcb⟩
      · rintro ⟨c, hc, hcp, hcb⟩
        rcases List.mem_cons.mp hc with rfl | hc2
        · simp only at hcp hcb
          rw [if_pos ⟨hcp, hcb⟩]
          omega
        · have : 0 < vfr := hiff.mpr ⟨c, hc2, by rw [hstep c hc2]; exact hcp, hcb⟩
          omega

/-- With the row inside the plane, the `uint16` coordinate reductions of
`rowCells` vanish: bit `7-k` goes to `(x+k, y)`. -/
theorem rowCells_eq (x y b : Nat) (hx : x + 7 < 65536) (hy : y < 65536) :
    rowCells x y b =
      [ (x, y, bitOf b 0), (x + 1, y, bitOf b 1), (x + 2, y, bitOf b 2),
        (x + 3, y, bitOf b 3), (x + 4, y, bitOf b 4), (x + 5, y, bitOf b 5),
        (x + 6, y, bitOf b 6), (x + 7, y, bitOf b 7) ] := by
  have h0 : x % 65536 = x := Nat.mod_eq_of_lt (by omega)
  have h1 : (x + 1) % 65536 = x + 1 := Nat.mod_eq_of_lt (by omega)
  have h2 : (x + 2) % 65536 = x + 2 := Nat.mod_eq_of_lt (by omega)
  have h3 : (x + 3) % 65536 = x + 3 := Nat.mod_eq_of_lt (by omega)
  have h4 : (x + 4) % 65536 = x + 4 := Nat.mod_eq_of_lt (by omega)
  have h5 : (x + 5) % 65536 = x + 5 := Nat.mod_eq_of_lt (by omega)
  have h6 : (x + 6) % 65536 = x + 6 := Nat.mod_eq_of_lt (by omega)
  have h7 : (x + 7) % 65536 = x + 7 := Nat.mod_eq_of_lt (by omega)
  have hyy : y % 65536 = y := Nat.mod_eq_of_lt hy
  simp only [rowCells, bitOf, h0, h1, h2, h3, h4, h5, h6, h7, hyy]
  norm_num

/-- The pixel writes of a sprite draw are exactly the cells
`(x+k, y+i, bit k of row i)` for `i` below the row count and `k < 8`,
provided the whole sprite is in range. -/
theorem spriteCells_mem : ∀ (rows : List Nat) (x y : Nat),
    x + 7 < H_PIXELS → y + rows.length ≤ V_PIXELS →
    ∀ c, c ∈ spriteCells x y rows ↔
      ∃ i, i < rows.length ∧ ∃ k, k < 8 ∧ c = (x + k, y + i, bitOf (rows.getD i 0) k) := by
  intro rows
  induction rows with
  | nil => intro x y _ _ c; simp [spriteCells]
  | cons b rest ih =>
    intro x y hx hy c
    have hx' : x + 7 < 65536 := by have hH : H_PIXELS = 64 := rfl; omega
    have hy' : y < 65536 := by
      have hV : V_PIXELS = 32 := rfl
      simp only [List.length_cons] at hy
      omega
    rw [spriteCells, List.mem_append, rowCells_eq x y b hx' hy',
      ih x (y + 1) hx (by simp only [List.length_cons] at hy; omega)]
    constructor
    · rintro (hc | ⟨i, hi, k, hk, rfl⟩)
      · simp only [List.mem_cons, List.not_mem_nil, or_false] at hc
        rcases hc with rfl|rfl|rfl|rfl|rfl|rfl|rfl|rfl
        · exact ⟨0, by simp, 0, by norm_num, by simp⟩
        · exact ⟨0, by simp, 1, by norm_num, by simp⟩
        · exact ⟨0, by simp, 2, by norm_num, by simp⟩
        · exact ⟨0, by simp, 3, by norm_num, by simp⟩
        · exact ⟨0, by simp, 4, by norm_num, by simp⟩
        · exact ⟨0, by simp, 5, by norm_num, by simp⟩
        · exact ⟨0, by simp, 6, by norm_num, by simp⟩
        · exact ⟨0, by simp, 7, by norm_num, by simp⟩
      · refine ⟨i + 1, by simp only [List.length_cons]; omega, k, hk, ?_⟩
        have harr : y + 1 + i = y + (i + 1) := by omega
        simp [harr]
    · rintro ⟨i, hi, k, hk, rfl⟩
      cases i with
      | zero =>
        left
        interval_cases k <;> simp
      | succ i' =>
        right
        refine ⟨i', by simp only [List.length_cons] at hi; omega, k, hk, ?_⟩
        have harr : y + (i' + 1) = y + 1 + i' := by omega
        simp [harr]

/-- An in-range sprite produces only in-range cells. -/
theorem spriteCells_bounds (rows : List Nat) (x y : Nat)
    (hx : x + 7 < H_PIXELS) (hy : y + rows.length ≤ V_PIXELS) :
    ∀ c ∈ spriteCells x y rows, c.1 < H_PIXELS ∧ c.2.1 < V_PIXELS := by
  intro c hc
  obtain ⟨i, hi, k, hk, rfl⟩ := (spriteCells_mem rows x y hx hy c).mp hc
  constructor
  · show x + k < H_PIXELS
    omega
  · show y + i < V_PIXELS
    omega

/-- An in-range sprite touches pairwise distinct pixels. -/
theorem spriteCells_nodup : ∀ (rows : List Nat) (x y : Nat),
    x + 7 < H_PIXELS → y + rows.length ≤ V_PIXELS →
    ((spriteCells x y rows).map fun c => (c.1, c.2.1)).Nodup := by
  intro rows
  induction rows with
  | nil => intro x y _ _; simp [spriteCells]
  | cons b rest ih =>
    intro x y hx hy
    have hx' : x + 7 < 65536 := by have hH : H_PIXELS = 64 := rfl; omega
    have hy' : y < 65536 := by
      have hV : V_PIXELS = 32 := rfl
      simp only [List.length_cons] at hy
      omega
    have hyrest : y + 1 + rest.length ≤ V_PIXELS := by
      simp only [List.length_cons] at hy
      omega
    rw [spriteCells, List.map_append, List.nodup_append]
    refine ⟨?_, ih x (y + 1) hx hyrest, ?_⟩
    · rw [rowCells_eq x y b hx' hy']
      simp [Prod.ext_iff]
    · intro a ha hb2
      obtain ⟨c, hc, rfl⟩ := List.mem_map.mp hb2
      obtain ⟨i, hi, k, hk, rfl⟩ := (spriteCells_mem rest x (y + 1) hx hyrest c).mp hc
      rw [rowCells_eq x y b hx' hy'] at ha
      simp only [List.map_cons, List.map_nil, List.mem_cons, List.not_mem_nil, or_false] at ha
      rcases ha with ha|ha|ha|ha|ha|ha|ha|ha <;>
      · rw [Prod.ext_iff] at ha
        simp at ha
        omega

/-- A sprite of `n` rows makes `8 * n` pixel writes. -/
theorem spriteCells_length : ∀ (rows : List Nat) (x y : Nat),
    (spriteCells x y rows).length = 8 * rows.length := by
  intro rows
  induction rows with
  | nil => intro x y; rfl
  | cons b rest ih =>
    intro x y
    simp only [spriteCells, List.length_append, List.length_cons, ih x (y + 1), rowCells,
      List.length_nil]
    omega

/-- Characterization of one in-range `VideoMemory.draw`: it succeeds, its
VF result is 0 or 1, it XORs bit `7-k` of row `i` into pixel
`(x+k, y+i)` and touches no other pixel, and VF is 1 exactly when some
on-bit of the sprite lands on an on-pixel. -/
theorem draw_spec (p : Plane) (x y : Nat) (rows : List Nat)
    (hx : x + 7 < H_PIXELS) (hy : y + rows.length ≤ V_PIXELS) (hlen : rows.length ≤ 15) :
    ∃ p1 vf1, draw p x y rows = some (p1, vf1) ∧
      (vf1 = 0 ∨ vf1 = 1) ∧
      (∀ a b, (∀ i, i < rows.length → ∀ k, k < 8 → ¬(a = x + k ∧ b = y + i)) →
        p1 a b = p a b) ∧
      (∀ i, i < rows.length → ∀ k, k < 8 →
        p1 (x + k) (y + i) = p (x + k) (y + i) ^^^ bitOf (rows.getD i 0) k) ∧
      (vf1 = 1 ↔ ∃ i, i < rows.length ∧ ∃ k, k < 8 ∧
        p (x + k) (y + i) = 1 ∧ bitOf (rows.getD i 0) k = 1) := by
  have hcl : (spriteCells x y rows).length < 65536 := by
    rw [spriteCells_length]
    omega
  obtain ⟨p1, vf, hdl, hvle, hun, hto, hiff⟩ :=
    drawPixList_spec (spriteCells x y rows) p (spriteCells_bounds rows x y hx hy)
      (spriteCells_nodup rows x y hx hy) hcl
  refine ⟨p1, if vf > 0 then 1 else 0, ?_, by split <;> simp, ?_, ?_, ?_⟩
  · simp only [draw, hdl]
  · intro a b ha
    refine hun a b ?_
    intro c hc
    obtain ⟨i, hi, k, hk, rfl⟩ := (spriteCells_mem rows x y hx hy c).mp hc
    intro hee
    exact ha i hi k hk ⟨hee.1.symm, hee.2.symm⟩
  · intro i hi k hk
    have hc : ((x + k, y + i, bitOf (rows.getD i 0) k) : Nat × Nat × Nat) ∈
        spriteCells x y rows :=
      (spriteCells_mem rows x y hx hy _).mpr ⟨i, hi, k, hk, rfl⟩
    exact hto _ hc
  · constructor
    · intro h1
      have hpos : 0 < vf := by by_contra hn; simp at hn; simp [hn] at h1
      obtain ⟨c, hc, hcp, hcb⟩ := hiff.mp hpos
      obtain ⟨i, hi, k, hk, rfl⟩ := (spriteCells_mem rows x y hx hy c).mp hc
      exact ⟨i, hi, k, hk, hcp, hcb⟩
    · rintro ⟨i, hi, k, hk, hcp, hcb⟩
      have hc : ((x + k, y + i, bitOf (rows.getD i 0) k) : Nat × Nat × Nat) ∈
          spriteCells x y rows :=
        (spriteCells_mem rows x y hx hy _).mpr ⟨i, hi, k, hk, rfl⟩
      have hpos : 0 < vf := hiff.mpr ⟨_, hc, hcp, hcb⟩
      simp [hpos]

/-- C6 (amended): for an in-range draw on a 0/1-valued plane, VF is 0 or 1
and is 1 iff at least one on-pixel was flipped to off; drawing the same
sprite twice at the same coordinates restores the pending plane
pointwise, and the second draw's VF is 1 iff some on-bit of the sprite
covers a pixel that was off before the first draw (not unconditionally
1, as the original claim states). -/
theorem draw_collision_and_idempotence (p : Plane) (x y : Nat) (rows : List Nat)
    (hx : x + 7 < H_PIXELS) (hy : y + rows.length ≤ V_PIXELS) (hlen : rows.length ≤ 15)
    (hp : ∀ a b, p a b ≤ 1) :
    ∃ p1 vf1 p2 vf2,
      draw p x y rows = some (p1, vf1) ∧
      (vf1 = 0 ∨ vf1 = 1) ∧
      (vf1 = 1 ↔ ∃ i, i < rows.length ∧ ∃ k, k < 8 ∧
        p (x + k) (y + i) = 1 ∧ bitOf (rows.getD i 0) k = 1) ∧
      draw p1 x y rows = some (p2, vf2) ∧
      (∀ a b, p2 a b = p a b) ∧
      (vf2 = 1 ↔ ∃ i, i < rows.length ∧ ∃ k, k < 8 ∧
        p (x + k) (y + i) = 0 ∧ bitOf (rows.getD i 0) k = 1) := by
  obtain ⟨p1, vf1, hd1, hv01, hun1, hto1, hiff1⟩ := draw_spec p x y rows hx hy hlen
  obtain ⟨p2, vf2, hd2, hv02, hun2, hto2, hiff2⟩ := draw_spec p1 x y rows hx hy hlen
  refine ⟨p1, vf1, p2, vf2, hd1, hv01, hiff1, hd2, ?_, ?_⟩
  · intro a b
    by_cases hc : ∃ i, i < rows.length ∧ ∃ k, k < 8 ∧ a = x + k ∧ b = y + i
    · obtain ⟨i, hi, k, hk, rfl, rfl⟩ := hc
      rw [hto2 i hi k hk, hto1 i hi k hk, Nat.xor_assoc, Nat.xor_self, Nat.xor_zero]
    · have hfar : ∀ i, i < rows.length → ∀ k, k < 8 → ¬(a = x + k ∧ b = y + i) := by
        intro i hi k hk hab
        exact hc ⟨i, hi, k, hk, hab.1, hab.2⟩
      rw [hun2 a b hfar, hun1 a b hfar]
  · rw [hiff2]
    constructor
    · rintro ⟨i, hi, k, hk, hp1, hb⟩
      refine ⟨i, hi, k, hk, ?_, hb⟩
      have ht := hto1 i hi k hk
      rw [hb] at ht
      rcases Nat.le_one_iff_eq_zero_or_eq_one.mp (hp (x + k) (y + i)) with h0 | h1
      · exact h0
      · rw [h1] at ht
        rw [ht] at hp1
        norm_num at hp1
    · rintro ⟨i, hi, k, hk, hp0, hb⟩
      refine ⟨i, hi, k, hk, ?_, hb⟩
      rw [hto1 i hi k hk, hp0, hb]
      rfl

/-- C6 (counterexample): on a plane whose only on-pixel is (0,0), drawing
the one-bit sprite `80` at (0,0) twice restores the plane — (0,0) is on
again, (1,0) off — but the second draw's VF is 0, not 1 as the claim
requires. -/
theorem double_draw_vf_cex :
    ((draw (fun a b => if a = 0 ∧ b = 0 then 1 else 0) 0 0 [0x80]).bind
      (fun r => draw r.1 0 0 [0x80])).map (fun r => r.2) = some 0 ∧
    ((draw (fun a b => if a = 0 ∧ b = 0 then 1 else 0) 0 0 [0x80]).bind
      (fun r => draw r.1 0 0 [0x80])).map (fun r => (r.1 0 0, r.1 1 0)) = some (1, 0) :=
  ⟨rfl, rfl⟩

/-- Witness for `draw_collision_and_idempotence`: the all-zero plane with
sprite `80` at (2,3). -/
theorem draw_collision_and_idempotence_witness :
    ∃ p1 vf1 p2 vf2,
      draw (fun _ _ => 0) 2 3 [0x80] = some (p1, vf1) ∧
      (vf1 = 0 ∨ vf1 = 1) ∧
      (vf1 = 1 ↔ ∃ i, i < (List.length [0x80]) ∧ ∃ k, k < 8 ∧
        (fun _ _ => (0 : Nat)) (2 + k) (3 + i) = 1 ∧ bitOf ([0x80].getD i 0) k = 1) ∧
      draw p1 2 3 [0x80] = some (p2, vf2) ∧
      (∀ a b, p2 a b = (fun _ _ => (0 : Nat)) a b) ∧
      (vf2 = 1 ↔ ∃ i, i < (List.length [0x80]) ∧ ∃ k, k < 8 ∧
        (fun _ _ => (0 : Nat)) (2 + k) (3 + i) = 0 ∧ bitOf ([0x80].getD i 0) k = 1) :=
  draw_collision_and_idempotence (fun _ _ => 0) 2 3 [0x80] (by decide) (by decide)
    (by decide) (fun _ _ => Nat.zero_le 1)
